import Mathlib

/-!
Shallow embedding of the gocaptcha raster composition pipeline
(`utils.go` and the two package files) for checking the specification's
claims.

Modelling conventions:
* Go machine integers are modelled as `Int`; Go truncated division is
  `Int.tdiv`; the Go `uint8(e)` conversion is `uint8OfInt` (reduction
  modulo 256).
* The process-wide random source is modelled as a stream of draws
  (`Rng := List Nat`).  `rand.Intn(n)` consumes one draw and returns a
  value in `[0, n)`; it panics (modelled as `none`) when `n ≤ 0`,
  exactly as the Go runtime does.
* Go runtime panics (integer division by zero, `rand.Intn` with a
  non-positive bound) are modelled by `Option`: a function returns
  `none` where the Go code crashes.
* External collaborators (freetype rendering, font file reading and
  parsing, PNG/JPEG/GIF encoders) are oracle parameters, as are the
  integer truncations of `float64` expressions (the sine curves and
  font sizes); a comment at each oracle names the float expression it
  stands for.
-/

deriving instance DecidableEq for Except

/-- Go `error` values (`errors.New(...)` and errors surfaced by the
external collaborators). -/
inductive GoError where
  | str : String → GoError
deriving DecidableEq

/-- Opaque stand-in for `truetype.Font`; the core never inspects it. -/
structure Font where
  bytes : List Nat
deriving DecidableEq

/-- The stream of pseudo-random draws of a `math/rand` source. -/
abbrev Rng := List Nat

/-- `rand.Intn(n)`: consumes one draw, returns a value in `[0, n)`;
panics (`none`) when `n ≤ 0`, as the Go runtime does. -/
def goIntn (n : Int) (r : Rng) : Option (Int × Rng) :=
  if n ≤ 0 then none else some (((r.headD 0 : Int)) % n, r.tail)

/-- Modelled from the spec: the repository's `Random(min, max)` helper is
not under `src/`; the spec says `RandomInt(min, max)` is uniform in
`[min, max]` with `min ≤ max` as a precondition.  One draw is consumed. -/
def goRandom (lo hi : Int) (r : Rng) : Int × Rng :=
  if hi ≤ lo then (lo, r.tail) else (lo + (r.headD 0 : Int) % (hi - lo + 1), r.tail)

/-- Go `uint8(e)` conversion of an integral value: reduction mod 256. -/
def uint8OfInt (i : Int) : Nat :=
  (i % 256).toNat

/-- Go integer division `a / b`: truncated division, panicking (`none`)
when the divisor is zero. -/
def goDivOpt (a b : Int) : Option Int :=
  if b = 0 then none else some (Int.tdiv a b)

/-- `color.RGBA`: four 8-bit channels. -/
structure Color where
  r : Nat
  g : Nat
  b : Nat
  a : Nat
deriving DecidableEq

/-- The `Point` type of the package. -/
structure Point where
  X : Int
  Y : Int
deriving DecidableEq

/-- `txtChars`, the fixed 62-symbol alphabet. -/
def txtChars : String :=
  "ABCDEFGHIJKLMNOPQRSTUVWXYZabcdefghijklmnopqrstuvwxyz0123456789"

/-- `CaptchaImage`: the pixel buffer (`nrgba`, modelled as a total
function meaningful on `[0,width) × [0,height)`), the dimensions, and
the sticky `Error` field. -/
structure CaptchaImage where
  pixels : Int → Int → Color
  width : Int
  height : Int
  Complex : Int
  Error : Option GoError

/-- `New`: allocate a canvas filled with the background color. -/
def New (width height : Int) (bgColor : Color) : CaptchaImage :=
  ⟨fun _ _ => bgColor, width, height, 0, none⟩

/-- `captcha.nrgba.Set(x, y, col)`: out-of-bounds writes are silently
ignored, as by `image.NRGBA`. -/
def setPix (c : CaptchaImage) (x y : Int) (col : Color) : CaptchaImage :=
  if 0 ≤ x ∧ x < c.width ∧ 0 ≤ y ∧ y < c.height then
    { c with pixels := fun u v => if u = x ∧ v = y then col else c.pixels u v }
  else c

/-- Paint a list of points in one color, in order (helper used to state
pixel-level characterizations of the drawing loops). -/
def paintPts (col : Color) (L : List (Int × Int)) (c : CaptchaImage) : CaptchaImage :=
  L.foldl (fun a p => setPix a p.1 p.2 col) c

/-- `randColor` (utils.go): red and green are `Intn(255)` draws; the
blue draw is made and then unconditionally overwritten by
`400 - green - red` (or `0` when `red+green > 400`), clamped to 255. -/
def randColor (rng : Rng) : Option (Color × Rng) :=
  (goIntn 255 rng).bind fun p1 =>
  (goIntn 255 p1.2).bind fun p2 =>
  (goIntn 255 p2.2).map fun p3 =>
  let red := p1.1
  let green := p2.1
  let blue0 : Int := if red + green > 400 then 0 else 400 - green - red
  let blue := if blue0 > 255 then 255 else blue0
  (⟨uint8OfInt red, uint8OfInt green, uint8OfInt blue, uint8OfInt 255⟩, p3.2)

/-- `randDeepColor` (utils.go): starts from `randColor`, then darkens
each channel with the single draw `increase = 30 + Intn(255)` via the
float computation `uint8(abs(min(channel - increase, 255)))`; all the
intermediate values are integral, so the float arithmetic is exact and
is modelled on `Int`. -/
def randDeepColor (rng : Rng) : Option (Color × Rng) :=
  (randColor rng).bind fun pc =>
  (goIntn 255 pc.2).map fun pk =>
  let increase : Int := 30 + pk.1
  let red := |min ((pc.1.r : Int) - increase) 255|
  let green := |min ((pc.1.g : Int) - increase) 255|
  let blue := |min ((pc.1.b : Int) - increase) 255|
  (⟨uint8OfInt red, uint8OfInt green, uint8OfInt blue, uint8OfInt 255⟩, pk.2)

/-- `RandLightColor` (utils.go): each channel is `Intn(55) + 200`. -/
def RandLightColor (rng : Rng) : Option (Color × Rng) :=
  (goIntn 55 rng).bind fun p1 =>
  (goIntn 55 p1.2).bind fun p2 =>
  (goIntn 55 p2.2).map fun p3 =>
  (⟨uint8OfInt (p1.1 + 200), uint8OfInt (p2.1 + 200), uint8OfInt (p3.1 + 200),
    uint8OfInt 255⟩, p3.2)

/-- Loop of `RandText`: appends one uniformly drawn alphabet character
per iteration. -/
def randTextLoop : Nat → Rng → String → Option (String × Rng)
  | 0, r, acc => some (acc, r)
  | n+1, r, acc =>
    (goIntn (txtChars.length : Int) r).bind fun p =>
    randTextLoop n p.2 (acc.push (txtChars.toList.getD p.1.toNat 'A'))

/-- `RandText` (utils.go): `num` characters drawn from `txtChars`. -/
def RandText (num : Int) (rng : Rng) : Option (String × Rng) :=
  randTextLoop num.toNat rng ""

/-- `RandFontFamily`: indexes the registry with `Intn(len(fontFamily))`
(panicking when the registry is empty, since `rand.Intn(0)` panics),
then reads and parses the font file via the external collaborators. -/
def RandFontFamily (fontFamily : List String)
    (readFile : String → Except GoError (List Nat))
    (parseFont : List Nat → Except GoError Font)
    (r : Rng) : Option (Except GoError Font × Rng) :=
  (goIntn (fontFamily.length : Int) r).map fun p =>
  let fontFile := fontFamily.getD p.1.toNat ""
  match readFile fontFile with
  | .error e => (.error e, p.2)
  | .ok fontBytes =>
    match parseFont fontBytes with
    | .error e => (.error e, p.2)
    | .ok f => (.ok f, p.2)

/-- `ImageFormat` is a Go `int`; the three declared constants. -/
def ImageFormatPng : Int := 0

/-- `ImageFormatJpeg` constant. -/
def ImageFormatJpeg : Int := 1

/-- `ImageFormatGif` constant. -/
def ImageFormatGif : Int := 2

/-- The external PNG/JPEG/GIF encoder collaborators: each reads the
pixel buffer and either succeeds or fails. -/
structure EncodeOracles where
  pngEncode : (Int → Int → Color) → Except GoError Unit
  jpegEncode : (Int → Int → Color) → Except GoError Unit
  gifEncode : (Int → Int → Color) → Except GoError Unit

/-- `SaveImage`: dispatches on the format and hands the pixel buffer to
the matching encoder; an unrecognized format yields the
"not supported image format" error.  The canvas is returned as the
(unchanged) second component: the Go method never writes to the
receiver. -/
def SaveImage (enc : EncodeOracles) (captcha : CaptchaImage) (imageFormat : Int) :
    Except GoError Unit × CaptchaImage :=
  if imageFormat = ImageFormatPng then (enc.pngEncode captcha.pixels, captcha)
  else if imageFormat = ImageFormatJpeg then (enc.jpegEncode captcha.pixels, captcha)
  else if imageFormat = ImageFormatGif then (enc.gifEncode captcha.pixels, captcha)
  else (.error (GoError.str "not supported image format"), captcha)

/-- `DrawBorder`: paints the top and bottom rows, then the left and
right columns. -/
def DrawBorder (captcha : CaptchaImage) (borderColor : Color) : CaptchaImage :=
  if captcha.Error.isSome then captcha
  else
    let c1 := (List.range captcha.width.toNat).foldl
      (fun c x => setPix (setPix c (x : Int) 0 borderColor) (x : Int) (c.height - 1) borderColor)
      captcha
    (List.range captcha.height.toNat).foldl
      (fun c y => setPix (setPix c 0 (y : Int) borderColor) (c.width - 1) (y : Int) borderColor)
      c1

/-- The fixed near-white color of `DrawHollowLine`. -/
def hollowLineColor : Color := ⟨245, 250, 251, 255⟩

/-- Inner loop of `DrawHollowLine`: `for i := 0; i <= w; i++` paints
`(x, y+i)`. -/
def hollowInner (x yv : Int) : Nat → Int → CaptchaImage → CaptchaImage
  | 0, _, c => c
  | n+1, i, c => hollowInner x yv n (i + 1) (setPix c x (yv + i) hollowLineColor)

/-- Outer loop of `DrawHollowLine` over `x1 < x2` (`x1`, `x2` are
integral floats).  `yOr x` is the oracle for the integral truncation of
`sin(x·π·multiple/width)·(height/3)` plus the conditional
`height/2` shift. -/
def hollowLoop (yOr : Int → Int) (w : Int) : Nat → Int → CaptchaImage → CaptchaImage
  | 0, _, c => c
  | n+1, x1, c =>
    let yv := yOr x1
    let c1 := setPix c x1 yv hollowLineColor
    let c2 := hollowInner x1 yv (w + 1).toNat 0 c1
    hollowLoop yOr w n (x1 + 1) c2

/-- `DrawHollowLine`: the draws for `x1`, `x2` and `multiple` are
consumed from the stream (`Intn(first)` panics when `width/20 ≤ 0`);
the float sine curve is abstracted by the oracle `yOr`. -/
def DrawHollowLine (captcha : CaptchaImage) (rng : Rng) (yOr : Int → Int) :
    Option CaptchaImage :=
  if captcha.Error.isSome then some captcha
  else
    let first := Int.tdiv captcha.width 20
    let endV := first * 19
    (goIntn first rng).bind fun a1 =>
    (goIntn first a1.2).bind fun a2 =>
    (goIntn 5 a2.2).map fun _m =>
    let x1 := a1.1
    let x2 := a2.1 + endV
    let w := Int.tdiv captcha.height 20
    hollowLoop yOr w (x2 - x1).toNat x1 captcha

/-- Inner loop of `DrawSineLine`: `i := height/5; for i > 0 { Set(px+i,
int(py)); i-- }` — note the run is horizontal (`px+i` varies, the y
coordinate `int(py)` is fixed). -/
def sineInner (c0 : Color) (pyv px : Int) : Nat → CaptchaImage → CaptchaImage
  | 0, c => c
  | i+1, c => sineInner c0 pyv px i (setPix c (px + ((i : Int) + 1)) pyv c0)

/-- Outer loop of `DrawSineLine` over `px = 0; px < px2`.  The guard
`w != 0` of the source is always true: `w = 2π/t` with `t` a finite
float, and a float division `2π/t` is never `0` for finite `t`
(division by zero yields `+Inf`). -/
def sineLoop (c0 : Color) (pyInt : Int → Int) (k : Nat) (px2 : Int) :
    Nat → Int → CaptchaImage → CaptchaImage
  | 0, _, c => c
  | n+1, px, c =>
    if px < px2 then
      sineLoop c0 pyInt k px2 n (px + 1) (sineInner c0 (pyInt px) px k c)
    else c

/-- `DrawSineLine`: the draws for the amplitude `a` (`Intn(height/2)`,
panicking when `height/2 ≤ 0`), the offsets `b`, `f`, the period `t`,
the horizontal extent `px2` and the single curve color are consumed in
source order; `pyInt px` is the oracle for the integral truncation of
the float curve `a·sin(w·px+f) + b + width/5`. -/
def DrawSineLine (captcha : CaptchaImage) (rng : Rng) (pyInt : Int → Int) :
    Option CaptchaImage :=
  if captcha.Error.isSome then some captcha
  else
    (goIntn (Int.tdiv captcha.height 2) rng).bind fun pa =>
    let pb := goRandom (Int.tdiv (-captcha.height) 4) (Int.tdiv captcha.height 4) pa.2
    let pf := goRandom (Int.tdiv (-captcha.height) 4) (Int.tdiv captcha.height 4) pb.2
    let pt :=
      if captcha.height > Int.tdiv captcha.width 2 then
        goRandom (Int.tdiv captcha.width 2) captcha.height pf.2
      else
        goRandom captcha.height (Int.tdiv captcha.width 2) pf.2
    let ppx2 := goRandom (Int.tdiv (4 * captcha.width) 5) captcha.width pt.2
    (goIntn 150 ppx2.2).bind fun pr =>
    (goIntn 150 pr.2).bind fun pg =>
    (goIntn 150 pg.2).map fun pbl =>
    let c0 : Color := ⟨uint8OfInt pr.1, uint8OfInt pg.1, uint8OfInt pbl.1, uint8OfInt 255⟩
    sineLoop c0 pyInt (Int.tdiv captcha.height 5).toNat ppx2.1 ppx2.1.toNat 0 captcha

/-- One iteration's five `Set` calls of `drawBeeline`: the stepped point
and its four neighbours at `x±1`, `x±2` on the same row. -/
def beePaint (lineColor : Color) (x y : Int) (c : CaptchaImage) : CaptchaImage :=
  setPix (setPix (setPix (setPix (setPix c x y lineColor)
    (x + 1) y lineColor) (x - 1) y lineColor) (x + 2) y lineColor) (x - 2) y lineColor

/-- The five points painted by one `drawBeeline` iteration. -/
def beePts (x y : Int) : List (Int × Int) :=
  [(x, y), (x + 1, y), (x - 1, y), (x + 2, y), (x - 2, y)]

/-- The Bresenham stepping loop of `drawBeeline`: paint, stop when the
end point is reached, otherwise update `err` and step.  The Go loop is
unbounded (`for {}`); fuel makes the recursion structural, and
`beeLoop_isSome` below shows the canonical fuel always suffices. -/
def beeLoop (x2 y2 sx sy dx dy : Int) (lineColor : Color) :
    Nat → Int → Int → Int → CaptchaImage → Option CaptchaImage
  | 0, _, _, _, _ => none
  | n+1, x, y, e, c =>
    let c2 := beePaint lineColor x y c
    if x = x2 ∧ y = y2 then some c2
    else
      let e2 := e * 2
      let ex := if e2 > -dy then e - dy else e
      let x3 := if e2 > -dy then x + sx else x
      let ey := if e2 < dx then ex + dx else ex
      let y3 := if e2 < dx then y + sy else y
      beeLoop x2 y2 sx sy dx dy lineColor n x3 y3 ey c2

/-- The list of points `beeLoop` paints, mirroring its recursion. -/
def beeTrace (x2 y2 sx sy dx dy : Int) :
    Nat → Int → Int → Int → Option (List (Int × Int))
  | 0, _, _, _ => none
  | n+1, x, y, e =>
    if x = x2 ∧ y = y2 then some (beePts x y)
    else
      let e2 := e * 2
      let ex := if e2 > -dy then e - dy else e
      let x3 := if e2 > -dy then x + sx else x
      let ey := if e2 < dx then ex + dx else ex
      let y3 := if e2 < dx then y + sy else y
      (beeTrace x2 y2 sx sy dx dy n x3 y3 ey).map fun L => beePts x y ++ L

/-- `drawBeeline`: `dx`, `dy`, `err` are floats in the source but carry
exact integral values, so they are modelled on `Int`. -/
def drawBeeline (captcha : CaptchaImage) (point1 point2 : Point) (lineColor : Color) :
    Option CaptchaImage :=
  if captcha.Error.isSome then some captcha
  else
    let dx := |point1.X - point2.X|
    let dy := |point2.Y - point1.Y|
    let sx : Int := if point1.X ≥ point2.X then -1 else 1
    let sy : Int := if point1.Y ≥ point2.Y then -1 else 1
    let e := dx - dy
    beeLoop point2.X point2.Y sx sy dx dy lineColor (dx.toNat + dy.toNat + 1)
      point1.X point1.Y e captcha

/-- Per-segment loop of `DrawLine`: the endpoint draws (the first two y
draws are overwritten in both branches, matching the source), the
alternating thirds, the per-segment `randDeepColor`, and the
`drawBeeline` call. -/
def lineLoop (first endV y0 : Int) : Nat → Nat → Rng → CaptchaImage → Option CaptchaImage
  | 0, _, _, c => some c
  | n+1, i, r, c =>
    (goIntn first r).bind fun q1 =>
    (goIntn y0 q1.2).bind fun _q2 =>
    (goIntn first _q2.2).bind fun q3 =>
    (goIntn y0 q3.2).bind fun _q4 =>
    (goIntn y0 _q4.2).bind fun q5 =>
    (goIntn y0 q5.2).bind fun q6 =>
    let point1 : Point :=
      if i % 2 = 0 then ⟨q1.1, q5.1 + y0 * 2⟩ else ⟨q1.1, q5.1 + y0 * ((i : Int) % 2)⟩
    let point2 : Point :=
      if i % 2 = 0 then ⟨q3.1 + endV, q6.1⟩ else ⟨q3.1 + endV, q6.1 + y0 * 2⟩
    (randDeepColor q6.2).bind fun pc =>
    (drawBeeline c point1 point2 pc.1).bind fun c2 =>
    lineLoop first endV y0 n (i + 1) pc.2 c2

/-- `DrawLine(num)`. -/
def DrawLine (captcha : CaptchaImage) (num : Int) (rng : Rng) : Option CaptchaImage :=
  if captcha.Error.isSome then some captcha
  else
    let first := Int.tdiv captcha.width 10
    let endV := first * 9
    let y0 := Int.tdiv captcha.height 3
    lineLoop first endV y0 num.toNat 0 rng captcha

/-- Per-iteration loop of `DrawNoise`: a random pixel gets a fresh
`randColor`, and on `Intn(maxSize) % 3 == 0` the diagonal neighbour
gets another. -/
def noiseLoop (w h maxSize : Int) : Nat → Rng → CaptchaImage → Option CaptchaImage
  | 0, _, c => some c
  | n+1, r, c =>
    (goIntn w r).bind fun q1 =>
    (goIntn h q1.2).bind fun q2 =>
    (randColor q2.2).bind fun pc1 =>
    let c1 := setPix c q1.1 q2.1 pc1.1
    (goIntn maxSize pc1.2).bind fun q3 =>
    if q3.1 % 3 = 0 then
      (randColor q3.2).bind fun pc2 =>
      noiseLoop w h maxSize n pc2.2 (setPix c1 (q1.1 + 1) (q2.1 + 1) pc2.1)
    else
      noiseLoop w h maxSize n q3.2 c1

/-- `DrawNoise(complex)`: density 28/18/8 for Lower/Medium/High (18
otherwise), `(height*width)/density` iterations. -/
def DrawNoise (captcha : CaptchaImage) (complex : Int) (rng : Rng) : Option CaptchaImage :=
  if captcha.Error.isSome then some captcha
  else
    let density : Int :=
      if complex = 0 then 28 else if complex = 1 then 18 else if complex = 2 then 8 else 18
    let maxSize := Int.tdiv (captcha.height * captcha.width) density
    noiseLoop captcha.width captcha.height maxSize maxSize.toNat rng captcha

/-- Per-iteration loop of `DrawTextNoise`: position draws from the
freshly seeded local source `loc`, `RandText`/`RandLightColor`/
`RandFontFamily` from the package-wide source `g`; a font error or a
renderer error is recorded on the canvas and aborts the operation. -/
def textNoiseLoop (fontFamily : List String)
    (readFile : String → Except GoError (List Nat))
    (parseFont : List Nat → Except GoError Font)
    (render : Nat → String → Int × Int → Except GoError Unit)
    (w h : Int) : Nat → Nat → Rng → Rng → CaptchaImage → Option CaptchaImage
  | 0, _, _, _, c => some c
  | n+1, i, g, loc, c =>
    (goIntn w loc).bind fun q1 =>
    (goIntn h q1.2).bind fun q2 =>
    (RandText 1 g).bind fun ptext =>
    (goIntn 5 q2.2).bind fun q3 =>
    (RandLightColor ptext.2).bind fun plc =>
    (RandFontFamily fontFamily readFile parseFont plc.2).bind fun pf =>
    match pf.1 with
    | .error e => some { c with Error := some e }
    | .ok _ =>
      match render i ptext.1 (q1.1, q2.1) with
      | .error e => some { c with Error := some e }
      | .ok _ => textNoiseLoop fontFamily readFile parseFont render w h n (i + 1) pf.2 q3.2 c

/-- `DrawTextNoise(complex)`: density 2000/1500/1000 for
Lower/Medium/High (1500 otherwise); the `rawFontSize` draw comes from
the freshly seeded local source; the font-size floats only flow into
the abstracted renderer. -/
def DrawTextNoise (captcha : CaptchaImage) (complex : Int) (fontFamily : List String)
    (readFile : String → Except GoError (List Nat))
    (parseFont : List Nat → Except GoError Font)
    (render : Nat → String → Int × Int → Except GoError Unit)
    (g loc : Rng) : Option CaptchaImage :=
  if captcha.Error.isSome then some captcha
  else
    let density : Int :=
      if complex = 0 then 2000 else if complex = 1 then 1500 else if complex = 2 then 1000
      else 1500
    let maxSize := Int.tdiv (captcha.height * captcha.width) density
    (goIntn 7 loc).bind fun q0 =>
    textNoiseLoop fontFamily readFile parseFont render captcha.width captcha.height
      maxSize.toNat 0 g q0.2 captcha

/-- Per-character loop of `DrawText`: `fsOr i` is the oracle pair
`(int(fontSize), int(fontSize/2))` for the float
`fontSize = height/(1 + Intn(7)/9)` of index `i`; the x position
divides by `int(fontSize)` (a Go division that panics when that
truncation is zero, modelled by `goDivOpt`), and `Intn(height/2)`
panics when `height/2 ≤ 0`. -/
def textLoop (fontFamily : List String)
    (readFile : String → Except GoError (List Nat))
    (parseFont : List Nat → Except GoError Font)
    (render : Nat → String → Int × Int → Except GoError Unit)
    (fontWidth h : Int) (fsOr : Nat → Int × Int) :
    List Char → Nat → Rng → CaptchaImage → Option CaptchaImage
  | [], _, _, c => some c
  | ch :: rest, i, r, c =>
    (goIntn 7 r).bind fun q1 =>
    (randDeepColor q1.2).bind fun pdc =>
    (RandFontFamily fontFamily readFile parseFont pdc.2).bind fun pf =>
    match pf.1 with
    | .error e => some { c with Error := some e }
    | .ok _ =>
      (goDivOpt fontWidth (fsOr i).1).bind fun fdiv =>
      let x := fontWidth * (i : Int) + fdiv
      (goIntn (Int.tdiv h 2) pf.2).bind fun q2 =>
      let y := 5 + q2.1 + (fsOr i).2
      match render i (String.singleton ch) (x, y) with
      | .error e => some { c with Error := some e }
      | .ok _ => textLoop fontFamily readFile parseFont render fontWidth h fsOr rest (i + 1) q2.2 c

/-- `DrawText(text)`: after the sticky-error check, the first statement
with observable effect is `fontWidth := captcha.width / len(text)` — a
Go integer division that panics when `text` is empty (`goDivOpt`). -/
def DrawText (captcha : CaptchaImage) (text : String) (fontFamily : List String)
    (readFile : String → Except GoError (List Nat))
    (parseFont : List Nat → Except GoError Font)
    (render : Nat → String → Int × Int → Except GoError Unit)
    (fsOr : Nat → Int × Int) (rng : Rng) : Option CaptchaImage :=
  if captcha.Error.isSome then some captcha
  else
    (goDivOpt captcha.width (text.length : Int)).bind fun fontWidth =>
    textLoop fontFamily readFile parseFont render fontWidth captcha.height fsOr
      text.toList 0 rng captcha

/-- White, used as test background. -/
def whiteC : Color := ⟨255, 255, 255, 255⟩

/-- Black, used as test stroke color. -/
def blackC : Color := ⟨0, 0, 0, 255⟩

/-- A canvas whose `Error` is already set, for exercising the sticky
error branch. -/
def cErrBoom : CaptchaImage :=
  { New 3 3 whiteC with Error := some (GoError.str "boom") }

/-- Encoder oracles that always succeed. -/
def encOk : EncodeOracles :=
  ⟨fun _ => .ok (), fun _ => .ok (), fun _ => .ok ()⟩

/-- A file-reading oracle that always fails. -/
def readFileFail : String → Except GoError (List Nat) :=
  fun _ => .error (GoError.str "open: no such file")

/-- A font-parsing oracle that always fails. -/
def parseFontFail : List Nat → Except GoError Font :=
  fun _ => .error (GoError.str "freetype: invalid font")

/-- A renderer oracle that always succeeds. -/
def renderOk : Nat → String → Int × Int → Except GoError Unit :=
  fun _ _ _ => .ok ()

/-! ## Helper lemmas -/

/-- `rand.Intn(n)` with a positive bound never panics and returns the
head draw reduced mod `n`. -/
theorem goIntn_pos (n : Int) (hn : 0 < n) (r : Rng) :
    goIntn n r = some ((r.headD 0 : Int) % n, r.tail) := by
  simp only [goIntn, if_neg (by omega : ¬ n ≤ 0)]

/-- `uint8OfInt` is the identity on `[0, 256)`. -/
theorem uint8OfInt_of_lt {x : Int} (h1 : 0 ≤ x) (h2 : x < 256) :
    (uint8OfInt x : Int) = x := by
  unfold uint8OfInt
  rw [Int.emod_eq_of_lt h1 h2, Int.toNat_of_nonneg h1]

/-- Closed form of `randColor` on an arbitrary stream. -/
theorem randColor_eq (rng : Rng) :
    randColor rng = some
      (⟨uint8OfInt ((rng.headD 0 : Int) % 255),
        uint8OfInt ((rng.tail.headD 0 : Int) % 255),
        uint8OfInt
          (if (if ((rng.headD 0 : Int) % 255) + ((rng.tail.headD 0 : Int) % 255) > 400
                then (0 : Int)
                else 400 - ((rng.tail.headD 0 : Int) % 255) - ((rng.headD 0 : Int) % 255)) > 255
            then 255
            else (if ((rng.headD 0 : Int) % 255) + ((rng.tail.headD 0 : Int) % 255) > 400
                then (0 : Int)
                else 400 - ((rng.tail.headD 0 : Int) % 255) - ((rng.headD 0 : Int) % 255))),
        uint8OfInt 255⟩, rng.tail.tail.tail) := by
  simp only [randColor, goIntn_pos 255 (by norm_num)]
  rfl

/-! ## Claim theorems -/

/-- C1: Sticky first error: for every drawing operation and every canvas
whose `Error` field is already non-nil, invoking the operation returns
the canvas itself, unchanged — every pixel is left as it was and the
stored error is passed through, never overwritten. -/
theorem claim_C1_sticky_first_error (c : CaptchaImage) (h : c.Error.isSome) :
    (∀ col, DrawBorder c col = c) ∧
    (∀ rng yOr, DrawHollowLine c rng yOr = some c) ∧
    (∀ rng pyInt, DrawSineLine c rng pyInt = some c) ∧
    (∀ num rng, DrawLine c num rng = some c) ∧
    (∀ complex rng, DrawNoise c complex rng = some c) ∧
    (∀ complex fonts rf pf render g loc,
      DrawTextNoise c complex fonts rf pf render g loc = some c) ∧
    (∀ text fonts rf pf render fsOr rng,
      DrawText c text fonts rf pf render fsOr rng = some c) := by
  refine ⟨?_, ?_, ?_, ?_, ?_, ?_, ?_⟩ <;> intros <;>
    simp [DrawBorder, DrawHollowLine, DrawSineLine, DrawLine, DrawNoise, DrawTextNoise,
      DrawText, h]

/-- Witness for C1 at a concrete failed canvas: `DrawBorder` and
`DrawText` leave it untouched. -/
theorem claim_C1_sticky_first_error_witness :
    DrawBorder cErrBoom blackC = cErrBoom ∧
    DrawText cErrBoom "ab" [] readFileFail parseFontFail renderOk (fun _ => (1, 1)) []
      = some cErrBoom := by
  have h := claim_C1_sticky_first_error cErrBoom (by decide)
  exact ⟨h.1 blackC,
    h.2.2.2.2.2.2 "ab" [] readFileFail parseFontFail renderOk (fun _ => (1, 1)) []⟩

/-- C2 counterexample: on a canvas whose `Error` is already set,
`SaveImage` with the PNG format returns the encoder's result (here
success), not the stored error — the claim that the stored error is
surfaced is false on the code, which never consults `captcha.Error`. -/
theorem claim_C2_counterexample :
    (SaveImage encOk cErrBoom ImageFormatPng).1 = Except.ok () ∧
    cErrBoom.Error = some (GoError.str "boom") :=
  ⟨rfl, rfl⟩

/-- C2 amended: `SaveImage` does not consult the stored error; for each
supported format it returns the corresponding encoder's result on the
pixel buffer (and leaves the canvas unchanged) even when `Error` is
non-nil. -/
theorem claim_C2_amended (enc : EncodeOracles) (c : CaptchaImage) (h : c.Error ≠ none) :
    SaveImage enc c ImageFormatPng = (enc.pngEncode c.pixels, c) ∧
    SaveImage enc c ImageFormatJpeg = (enc.jpegEncode c.pixels, c) ∧
    SaveImage enc c ImageFormatGif = (enc.gifEncode c.pixels, c) := by
  refine ⟨rfl, ?_, ?_⟩ <;>
    simp [SaveImage, ImageFormatPng, ImageFormatJpeg, ImageFormatGif]

/-- Witness for the amended C2 at a concrete failed canvas. -/
theorem claim_C2_amended_witness :
    SaveImage encOk cErrBoom ImageFormatPng = (encOk.pngEncode cErrBoom.pixels, cErrBoom) ∧
    SaveImage encOk cErrBoom ImageFormatJpeg = (encOk.jpegEncode cErrBoom.pixels, cErrBoom) ∧
    SaveImage encOk cErrBoom ImageFormatGif = (encOk.gifEncode cErrBoom.pixels, cErrBoom) :=
  claim_C2_amended encOk cErrBoom (by decide)

/-- C6: for every canvas and every format value outside
{PNG, JPEG, GIF}, `SaveImage` returns the "not supported image format"
error and returns the canvas unchanged. -/
theorem claim_C6_unsupported_format (enc : EncodeOracles) (c : CaptchaImage) (fmt : Int)
    (h1 : fmt ≠ ImageFormatPng) (h2 : fmt ≠ ImageFormatJpeg) (h3 : fmt ≠ ImageFormatGif) :
    SaveImage enc c fmt = (.error (GoError.str "not supported image format"), c) := by
  simp [SaveImage, h1, h2, h3]

/-- Witness for C6 at the concrete unsupported format value 9. -/
theorem claim_C6_unsupported_format_witness :
    SaveImage encOk (New 2 2 whiteC) 9
      = (.error (GoError.str "not supported image format"), New 2 2 whiteC) :=
  claim_C6_unsupported_format encOk (New 2 2 whiteC) 9 (by decide) (by decide) (by decide)

/-- C7 counterexample: with an empty font registry, `RandFontFamily`
evaluates `rand.Intn(0)`, which panics (modelled `none`); it does not
return an error value. -/
theorem claim_C7_counterexample :
    RandFontFamily [] readFileFail parseFontFail [0] = none := rfl

/-- C7 amended: selecting a random font from an empty registry panics
(crashes) for every random stream and every collaborator oracle, rather
than returning an `EmptyFontRegistryError`-style error value. -/
theorem claim_C7_amended (readFile : String → Except GoError (List Nat))
    (parseFont : List Nat → Except GoError Font) (r : Rng) :
    RandFontFamily [] readFile parseFont r = none := by
  simp [RandFontFamily, goIntn]

/-- C10: with no stored error, `DrawText` on the empty string reaches
the integer division `captcha.width / len(text)` with a zero divisor
and panics (modelled `none`) instead of recording an error on the
canvas; for any non-empty text that division is well-defined. -/
theorem claim_C10_drawtext_empty_panics (c : CaptchaImage) (h : c.Error = none)
    (fonts : List String) (rf : String → Except GoError (List Nat))
    (pf : List Nat → Except GoError Font)
    (render : Nat → String → Int × Int → Except GoError Unit)
    (fsOr : Nat → Int × Int) (rng : Rng) (text : String) :
    (text = "" → DrawText c text fonts rf pf render fsOr rng = none) ∧
    (text ≠ "" → (goDivOpt c.width (text.length : Int)).isSome) := by
  constructor
  · intro ht
    subst ht
    simp [DrawText, h, goDivOpt]
  · intro ht
    have hl : text.length ≠ 0 := by
      intro h0
      apply ht
      cases text with
      | mk data =>
        cases data with
        | nil => rfl
        | cons a l => simp [String.length] at h0
    simp only [goDivOpt, if_neg (by exact_mod_cast hl : ¬ (text.length : Int) = 0),
      Option.isSome_some]

/-- Witness for C10: the empty string panics on a concrete clean
canvas, and for "ab" the division is defined there. -/
theorem claim_C10_drawtext_empty_panics_witness :
    DrawText (New 5 5 whiteC) "" [] readFileFail parseFontFail renderOk
      (fun _ => (1, 1)) [] = none ∧
    (goDivOpt (New 5 5 whiteC).width (("ab" : String).length : Int)).isSome :=
  ⟨(claim_C10_drawtext_empty_panics (New 5 5 whiteC) rfl [] readFileFail parseFontFail
      renderOk (fun _ => (1, 1)) [] "").1 rfl,
   (claim_C10_drawtext_empty_panics (New 5 5 whiteC) rfl [] readFileFail parseFontFail
      renderOk (fun _ => (1, 1)) [] "ab").2 (by decide)⟩

/-- C4: every `randDeepColor` result takes each channel from a
`randColor` base via `uint8(abs(min(base - increase, 255)))` with a
single shared `increase` in `[30, 284]`, in min-then-abs order, and
alpha 255. -/
theorem claim_C4_randDeepColor (rng : Rng) (col : Color) (r' : Rng)
    (h : randDeepColor rng = some (col, r')) :
    ∃ base rb inc, randColor rng = some (base, rb) ∧ 30 ≤ inc ∧ inc ≤ 284 ∧
      col.r = uint8OfInt |min ((base.r : Int) - inc) 255| ∧
      col.g = uint8OfInt |min ((base.g : Int) - inc) 255| ∧
      col.b = uint8OfInt |min ((base.b : Int) - inc) 255| ∧
      col.a = 255 := by
  rw [randDeepColor, randColor_eq] at h
  simp only [Option.some_bind] at h
  rw [goIntn_pos 255 (by norm_num)] at h
  simp only [Option.map_some', Option.some.injEq, Prod.mk.injEq] at h
  obtain ⟨hcol, _⟩ := h
  subst hcol
  refine ⟨_, _, 30 + (rng.tail.tail.tail.headD 0 : Int) % 255, randColor_eq rng, ?_, ?_,
    rfl, rfl, rfl, rfl⟩
  · have := Int.emod_nonneg ((rng.tail.tail.tail.headD 0 : Int)) (by norm_num : (255 : Int) ≠ 0)
    omega
  · have := Int.emod_lt_of_pos ((rng.tail.tail.tail.headD 0 : Int)) (by norm_num : (0 : Int) < 255)
    omega

/-- Witness for C4 at the concrete stream [10, 20, 30, 40]: the base is
(10, 20, 255) with discarded blue draw 30, the increase is 70, and the
deep color evaluates to (60, 50, 185, 255). -/
theorem claim_C4_randDeepColor_witness :
    ∃ base rb inc, randColor [10, 20, 30, 40] = some (base, rb) ∧ 30 ≤ inc ∧ inc ≤ 284 ∧
      (⟨60, 50, 185, 255⟩ : Color).r = uint8OfInt |min ((base.r : Int) - inc) 255| ∧
      (⟨60, 50, 185, 255⟩ : Color).g = uint8OfInt |min ((base.g : Int) - inc) 255| ∧
      (⟨60, 50, 185, 255⟩ : Color).b = uint8OfInt |min ((base.b : Int) - inc) 255| ∧
      (⟨60, 50, 185, 255⟩ : Color).a = 255 :=
  claim_C4_randDeepColor [10, 20, 30, 40] ⟨60, 50, 185, 255⟩ [] (by decide)

/-- C5 counterexample: the red channel of `randColor` can never be 255
(`rand.Intn(255)` draws from `[0, 254]`), refuting "uniform over the
full range [0,255]" at the explicit value 255. -/
theorem claim_C5_counterexample :
    ¬ ∃ rng col r', randColor rng = some (col, r') ∧ col.r = 255 := by
  rintro ⟨rng, col, r', hc, hr⟩
  rw [randColor_eq] at hc
  simp only [Option.some.injEq, Prod.mk.injEq] at hc
  obtain ⟨hcol, _⟩ := hc
  subst hcol
  simp only [uint8OfInt] at hr
  have h1 := Int.emod_nonneg ((rng.headD 0 : Int)) (by norm_num : (255 : Int) ≠ 0)
  have h2 := Int.emod_lt_of_pos ((rng.headD 0 : Int)) (by norm_num : (0 : Int) < 255)
  omega

/-- C5 amended: red and green channels of `randColor` range over
`[0, 254]` (not `[0, 255]`): both are bounded by 254, every pair of
values in `[0, 254]` is attainable, blue is `400 - red - green` clamped
to at most 255 when `red + green ≤ 400` and 0 when `red + green > 400`,
and alpha is 255. -/
theorem claim_C5_randColor_amended :
    (∀ rng col r', randColor rng = some (col, r') →
      col.r ≤ 254 ∧ col.g ≤ 254 ∧ col.a = 255 ∧
      ((col.r : Int) + (col.g : Int) ≤ 400 →
        (col.b : Int) = min (400 - (col.r : Int) - (col.g : Int)) 255) ∧
      (400 < (col.r : Int) + (col.g : Int) → col.b = 0)) ∧
    (∀ v1 v2 : Nat, v1 ≤ 254 → v2 ≤ 254 →
      ∃ rng col r', randColor rng = some (col, r') ∧ col.r = v1 ∧ col.g = v2) := by
  constructor
  · intro rng col r' hc
    rw [randColor_eq] at hc
    simp only [Option.some.injEq, Prod.mk.injEq] at hc
    obtain ⟨hcol, _⟩ := hc
    subst hcol
    dsimp only
    have h1 := Int.emod_nonneg ((rng.headD 0 : Int)) (by norm_num : (255 : Int) ≠ 0)
    have h2 := Int.emod_lt_of_pos ((rng.headD 0 : Int)) (by norm_num : (0 : Int) < 255)
    have h3 := Int.emod_nonneg ((rng.tail.headD 0 : Int)) (by norm_num : (255 : Int) ≠ 0)
    have h4 := Int.emod_lt_of_pos ((rng.tail.headD 0 : Int)) (by norm_num : (0 : Int) < 255)
    set a := (rng.headD 0 : Int) % 255 with ha
    set b := (rng.tail.headD 0 : Int) % 255 with hb
    have hra : (uint8OfInt a : Int) = a := uint8OfInt_of_lt (by omega) (by omega)
    have hrb : (uint8OfInt b : Int) = b := uint8OfInt_of_lt (by omega) (by omega)
    refine ⟨by omega, by omega, by decide, ?_, ?_⟩
    · intro hle
      rw [hra, hrb] at hle ⊢
      rw [if_neg (by omega : ¬ a + b > 400)]
      by_cases hbig : 400 - b - a > 255
      · rw [if_pos hbig, uint8OfInt_of_lt (by omega) (by omega)]
        omega
      · rw [if_neg hbig, uint8OfInt_of_lt (by omega) (by omega)]
        omega
    · intro hgt
      rw [hra, hrb] at hgt
      rw [if_pos (by omega : a + b > 400)]
      simp [uint8OfInt]
  · intro v1 v2 hv1 hv2
    refine ⟨[v1, v2, 0], _, _, randColor_eq [v1, v2, 0], ?_, ?_⟩
    · simp only [List.headD, uint8OfInt]
      omega
    · simp only [List.tail, List.headD, uint8OfInt]
      omega

/-- Witness for the amended C5: part one applied at the concrete stream
[1, 2, 3] (value (1, 2, 255, 255)), part two at the target pair
(7, 9). -/
theorem claim_C5_randColor_amended_witness :
    ((⟨1, 2, 255, 255⟩ : Color).r ≤ 254 ∧ (⟨1, 2, 255, 255⟩ : Color).g ≤ 254 ∧
      (⟨1, 2, 255, 255⟩ : Color).a = 255 ∧
      (((⟨1, 2, 255, 255⟩ : Color).r : Int) + ((⟨1, 2, 255, 255⟩ : Color).g : Int) ≤ 400 →
        ((⟨1, 2, 255, 255⟩ : Color).b : Int) =
          min (400 - ((⟨1, 2, 255, 255⟩ : Color).r : Int) - ((⟨1, 2, 255, 255⟩ : Color).g : Int))
            255) ∧
      (400 < ((⟨1, 2, 255, 255⟩ : Color).r : Int) + ((⟨1, 2, 255, 255⟩ : Color).g : Int) →
        (⟨1, 2, 255, 255⟩ : Color).b = 0)) ∧
    (∃ rng col r', randColor rng = some (col, r') ∧ col.r = 7 ∧ col.g = 9) :=
  ⟨claim_C5_randColor_amended.1 [1, 2, 3] ⟨1, 2, 255, 255⟩ [] (by decide),
   claim_C5_randColor_amended.2 7 9 (by decide) (by decide)⟩

/-- `setPix` preserves the canvas width. -/
theorem setPix_width (c : CaptchaImage) (x y : Int) (col : Color) :
    (setPix c x y col).width = c.width := by
  unfold setPix
  split <;> rfl

/-- `setPix` preserves the canvas height. -/
theorem setPix_height (c : CaptchaImage) (x y : Int) (col : Color) :
    (setPix c x y col).height = c.height := by
  unfold setPix
  split <;> rfl

/-- Pointwise effect of a single `Set` call: the target pixel gets the
color when it is in bounds, everything else is untouched. -/
theorem setPix_pixels (c : CaptchaImage) (x y : Int) (col : Color) (u v : Int) :
    (setPix c x y col).pixels u v =
      if u = x ∧ v = y ∧ 0 ≤ u ∧ u < c.width ∧ 0 ≤ v ∧ v < c.height then col
      else c.pixels u v := by
  by_cases hB : 0 ≤ x ∧ x < c.width ∧ 0 ≤ y ∧ y < c.height
  · rw [setPix, if_pos hB]
    by_cases heq : u = x ∧ v = y
    · have hC : u = x ∧ v = y ∧ 0 ≤ u ∧ u < c.width ∧ 0 ≤ v ∧ v < c.height := by
        obtain ⟨e1, e2⟩ := heq
        subst e1
        subst e2
        exact ⟨rfl, rfl, hB⟩
      rw [if_pos hC]
      show (if u = x ∧ v = y then col else c.pixels u v) = col
      rw [if_pos heq]
    · have hC : ¬ (u = x ∧ v = y ∧ 0 ≤ u ∧ u < c.width ∧ 0 ≤ v ∧ v < c.height) :=
        fun hc => heq ⟨hc.1, hc.2.1⟩
      rw [if_neg hC]
      show (if u = x ∧ v = y then col else c.pixels u v) = c.pixels u v
      rw [if_neg heq]
  · rw [setPix, if_neg hB]
    have hC : ¬ (u = x ∧ v = y ∧ 0 ≤ u ∧ u < c.width ∧ 0 ≤ v ∧ v < c.height) := by
      rintro ⟨e1, e2, hb⟩
      subst e1
      subst e2
      exact hB hb
    rw [if_neg hC]

/-- `paintPts` on the empty list. -/
theorem paintPts_nil (col : Color) (c : CaptchaImage) : paintPts col [] c = c := rfl

/-- `paintPts` unfolding on a head point. -/
theorem paintPts_cons (col : Color) (p : Int × Int) (L : List (Int × Int)) (c : CaptchaImage) :
    paintPts col (p :: L) c = paintPts col L (setPix c p.1 p.2 col) := rfl

/-- `paintPts` over an append paints the two parts in order. -/
theorem paintPts_append (col : Color) (L1 L2 : List (Int × Int)) (c : CaptchaImage) :
    paintPts col (L1 ++ L2) c = paintPts col L2 (paintPts col L1 c) := by
  unfold paintPts
  exact List.foldl_append _ _ _ _

/-- `paintPts` preserves the width. -/
theorem paintPts_width (col : Color) (L : List (Int × Int)) :
    ∀ c, (paintPts col L c).width = c.width := by
  induction L with
  | nil => intro c; rfl
  | cons p L ih =>
    intro c
    rw [paintPts_cons, ih, setPix_width]

/-- `paintPts` preserves the height. -/
theorem paintPts_height (col : Color) (L : List (Int × Int)) :
    ∀ c, (paintPts col L c).height = c.height := by
  induction L with
  | nil => intro c; rfl
  | cons p L ih =>
    intro c
    rw [paintPts_cons, ih, setPix_height]

/-- Pointwise effect of painting a list of points in one color: a pixel
holds the color exactly when it is one of the listed points and in
bounds; all other pixels are untouched. -/
theorem paintPts_pixels (col : Color) (L : List (Int × Int)) :
    ∀ c u v,
      (paintPts col L c).pixels u v =
        if (u, v) ∈ L ∧ 0 ≤ u ∧ u < c.width ∧ 0 ≤ v ∧ v < c.height then col
        else c.pixels u v := by
  induction L with
  | nil =>
    intro c u v
    rw [paintPts_nil, if_neg]
    rintro ⟨h, -⟩
    exact List.not_mem_nil _ h
  | cons p L ih =>
    intro c u v
    rw [paintPts_cons, ih, setPix_width, setPix_height, setPix_pixels]
    by_cases hB : 0 ≤ u ∧ u < c.width ∧ 0 ≤ v ∧ v < c.height
    · by_cases hm : (u, v) ∈ L
      · rw [if_pos ⟨hm, hB⟩, if_pos ⟨List.mem_cons_of_mem p hm, hB⟩]
      · rw [if_neg (fun hc => hm hc.1)]
        by_cases hp : u = p.1 ∧ v = p.2
        · have hpm : (u, v) ∈ p :: L := by
            have : (u, v) = p := Prod.ext hp.1 hp.2
            rw [this]
            exact List.mem_cons_self p L
          rw [if_pos ⟨hp.1, hp.2, hB⟩, if_pos ⟨hpm, hB⟩]
        · rw [if_neg (fun hc => hp ⟨hc.1, hc.2.1⟩), if_neg]
          rintro ⟨hmem, -⟩
          rcases List.mem_cons.mp hmem with heq | hmem2
          · exact hp ⟨congrArg Prod.fst heq, congrArg Prod.snd heq⟩
          · exact hm hmem2
    · rw [if_neg (fun hc => hB hc.2), if_neg (fun hc => hB ⟨hc.2.2.1, hc.2.2.2⟩),
        if_neg (fun hc => hB hc.2)]

/-- One `beePaint` is `paintPts` over the five points of `beePts`. -/
theorem beePaint_eq_paintPts (col : Color) (x y : Int) (c : CaptchaImage) :
    beePaint col x y c = paintPts col (beePts x y) c := rfl

/-- The canvas `beeLoop` produces is exactly the starting canvas with
the `beeTrace` points painted in the line color. -/
theorem beeLoop_eq_trace (x2 y2 sx sy dx dy : Int) (col : Color) :
    ∀ fuel x y e c,
      beeLoop x2 y2 sx sy dx dy col fuel x y e c
        = (beeTrace x2 y2 sx sy dx dy fuel x y e).map fun L => paintPts col L c := by
  intro fuel
  induction fuel with
  | zero => intro x y e c; rfl
  | succ n ih =>
    intro x y e c
    by_cases hdone : x = x2 ∧ y = y2
    · simp only [beeLoop, beeTrace, if_pos hdone, Option.map_some', beePaint_eq_paintPts]
    · simp only [beeLoop, beeTrace, if_neg hdone, ih, Option.map_map]
      congr 1

/-- Termination invariant for the Bresenham loop: with `rx`, `ry` the
remaining step counts toward the end point and the `err` identity
`e = dx - dy + rx*dy - ry*dx`, the loop returns within `rx + ry + 1`
iterations.  The two key facts are that the x step never fires once
`rx = 0` and the y step never fires once `ry = 0`, so the loop never
oversteps the end point. -/
theorem beeLoop_isSome (x2 y2 sx sy dx dy : Int) (col : Color)
    (hsx : sx = 1 ∨ sx = -1) (hsy : sy = 1 ∨ sy = -1) :
    ∀ fuel : Nat, ∀ x y e : Int, ∀ c : CaptchaImage, ∀ rx ry : Int,
      0 ≤ rx → rx ≤ dx → 0 ≤ ry → ry ≤ dy →
      x2 - x = sx * rx → y2 - y = sy * ry →
      e = dx - dy + rx * dy - ry * dx →
      rx + ry < (fuel : Int) →
      (beeLoop x2 y2 sx sy dx dy col fuel x y e c).isSome := by
  intro fuel
  induction fuel with
  | zero =>
    intro x y e c rx ry h1 h2 h3 h4 h5 h6 h7 h8
    exact absurd h8 (by omega)
  | succ n ih =>
    intro x y e c rx ry h1 h2 h3 h4 h5 h6 h7 h8
    simp only [beeLoop]
    by_cases hdone : x = x2 ∧ y = y2
    · simp [hdone]
    · rw [if_neg hdone]
      have hdx0 : 0 ≤ dx := le_trans h1 h2
      have hdy0 : 0 ≤ dy := le_trans h3 h4
      have hxiff : x = x2 ↔ rx = 0 := by
        rcases hsx with h | h <;> rw [h] at h5 <;> omega
      have hyiff : y = y2 ↔ ry = 0 := by
        rcases hsy with h | h <;> rw [h] at h6 <;> omega
      have hnd : ¬ (rx = 0 ∧ ry = 0) :=
        fun hc => hdone ⟨hxiff.mpr hc.1, hyiff.mpr hc.2⟩
      by_cases hcx : e * 2 > -dy
      · have hrx1 : 1 ≤ rx := by
          by_contra hc
          have hrx0 : rx = 0 := by omega
          subst hrx0
          have hry1 : 1 ≤ ry := by omega
          simp only [zero_mul] at h7
          have hbr : dx ≤ ry * dx := le_mul_of_one_le_left hdx0 hry1
          omega
        by_cases hcy : e * 2 < dx
        · have hry1 : 1 ≤ ry := by
            by_contra hc
            have hry0 : ry = 0 := by omega
            subst hry0
            have hrxp : 1 ≤ rx := by omega
            simp only [zero_mul] at h7
            have hbr : dy ≤ rx * dy := le_mul_of_one_le_left hdy0 hrxp
            omega
          rw [if_pos hcx, if_pos hcx, if_pos hcy, if_pos hcy]
          refine ih (x + sx) (y + sy) (e - dy + dx) _ (rx - 1) (ry - 1)
            (by omega) (by omega) (by omega) (by omega) ?_ ?_ ?_ (by omega)
          · rw [mul_sub, mul_one]
            omega
          · rw [mul_sub, mul_one]
            omega
          · rw [sub_mul, one_mul, sub_mul, one_mul]
            omega
        · rw [if_pos hcx, if_pos hcx, if_neg hcy, if_neg hcy]
          refine ih (x + sx) y (e - dy) _ (rx - 1) ry
            (by omega) (by omega) h3 h4 ?_ h6 ?_ (by omega)
          · rw [mul_sub, mul_one]
            omega
          · rw [sub_mul, one_mul]
            omega
      · by_cases hcy : e * 2 < dx
        · have hry1 : 1 ≤ ry := by
            by_contra hc
            have hry0 : ry = 0 := by omega
            subst hry0
            have hrxp : 1 ≤ rx := by omega
            simp only [zero_mul] at h7
            have hbr : dy ≤ rx * dy := le_mul_of_one_le_left hdy0 hrxp
            omega
          rw [if_neg hcx, if_neg hcx, if_pos hcy, if_pos hcy]
          refine ih x (y + sy) (e + dx) _ rx (ry - 1)
            h1 h2 (by omega) (by omega) h5 ?_ ?_ (by omega)
          · rw [mul_sub, mul_one]
            omega
          · rw [sub_mul, one_mul]
            omega
        · exfalso
          have hdxy : dx = 0 ∧ dy = 0 := by omega
          exact hnd ⟨by omega, by omega⟩

/-- C9: `drawBeeline` terminates for every pair of integer endpoints and
every color: the Bresenham stepping loop reaches the end point within
its canonical fuel `|dx| + |dy| + 1`, for all relative positions of the
two points, including equal points and degenerate lines. -/
theorem claim_C9_drawBeeline_terminates (c : CaptchaImage) (p1 p2 : Point) (col : Color) :
    (drawBeeline c p1 p2 col).isSome := by
  rw [drawBeeline]
  by_cases hE : c.Error.isSome
  · rw [if_pos hE]
    rfl
  · rw [if_neg hE]
    have habs1 : 0 ≤ |p1.X - p2.X| := abs_nonneg _
    have habs2 : 0 ≤ |p2.Y - p1.Y| := abs_nonneg _
    refine beeLoop_isSome p2.X p2.Y _ _ |p1.X - p2.X| |p2.Y - p1.Y| col ?_ ?_ _ _ _ _ _
      |p1.X - p2.X| |p2.Y - p1.Y| habs1 le_rfl habs2 le_rfl ?_ ?_ (by ring) (by omega)
    · split <;> simp
    · split <;> simp
    · split_ifs with h
      · rw [abs_of_nonneg (by omega : (0:Int) ≤ p1.X - p2.X)]
        ring
      · rw [abs_of_neg (by omega : p1.X - p2.X < 0)]
        ring
    · split_ifs with h
      · rw [abs_of_nonpos (by omega : p2.Y - p1.Y ≤ 0)]
        ring
      · rw [abs_of_pos (by omega : 0 < p2.Y - p1.Y)]
        ring

set_option maxRecDepth 4000 in
/-- C3 counterexample: `drawBeeline` from (0,0) to (10,0) on a 20×20
white canvas paints its stepped points and their `x±1`, `x±2`
neighbours on the same row, so the pixel (5,2) — which the claim's
5-pixel-tall vertical stroke `y ∈ {-2..2}` would paint — stays white,
while (5,0) on the line itself is painted. -/
theorem claim_C3_counterexample :
    (drawBeeline (New 20 20 whiteC) ⟨0, 0⟩ ⟨10, 0⟩ blackC).map
        (fun d => (d.pixels 5 2, d.pixels 5 0))
      = some (whiteC, blackC) := by decide

/-- C3 amended: `drawBeeline` applied to p1=(0,0), p2=(10,0) with any
color paints exactly the pixels with y = 0 and x in [-2, 12] (clipped
to bounds): the five-pixel thickness of the stroke is horizontal
(`x-2..x+2` at each stepped point, same row), so the horizontal
degenerate case is a 15-pixel-long, 1-pixel-tall row, not a 5-pixel-
tall band. -/
theorem claim_C3_drawBeeline_horizontal_amended (col : Color) (u v : Int)
    (hu0 : 0 ≤ u) (hu1 : u < 20) (hv0 : 0 ≤ v) (hv1 : v < 20) :
    (drawBeeline (New 20 20 whiteC) ⟨0, 0⟩ ⟨10, 0⟩ col).map (fun d => d.pixels u v)
      = some (if v = 0 ∧ u ≤ 12 then col else whiteC) := by
  have hun : drawBeeline (New 20 20 whiteC) ⟨0, 0⟩ ⟨10, 0⟩ col
      = beeLoop 10 0 1 (-1) 10 0 col 11 0 0 10 (New 20 20 whiteC) := by
    rw [drawBeeline, if_neg (by decide : ¬ (New 20 20 whiteC).Error.isSome = true)]
    dsimp only
    norm_num
    rw [show Int.toNat 10 + 1 = 11 from rfl]
  rw [hun]
  rw [beeLoop_eq_trace]
  rw [show beeTrace 10 0 1 (-1) 10 0 11 0 0 10 =
      some [((0:Int), (0:Int)), (1, 0), (-1, 0), (2, 0), (-2, 0),
        (1, 0), (2, 0), (0, 0), (3, 0), (-1, 0),
        (2, 0), (3, 0), (1, 0), (4, 0), (0, 0),
        (3, 0), (4, 0), (2, 0), (5, 0), (1, 0),
        (4, 0), (5, 0), (3, 0), (6, 0), (2, 0),
        (5, 0), (6, 0), (4, 0), (7, 0), (3, 0),
        (6, 0), (7, 0), (5, 0), (8, 0), (4, 0),
        (7, 0), (8, 0), (6, 0), (9, 0), (5, 0),
        (8, 0), (9, 0), (7, 0), (10, 0), (6, 0),
        (9, 0), (10, 0), (8, 0), (11, 0), (7, 0),
        (10, 0), (11, 0), (9, 0), (12, 0), (8, 0)] from by decide]
  simp only [Option.map_some', Option.some.injEq]
  rw [paintPts_pixels]
  refine if_congr ?_ rfl rfl
  simp only [List.mem_cons, List.not_mem_nil, or_false, Prod.mk.injEq]
  show (_ ∧ 0 ≤ u ∧ u < (New 20 20 whiteC).width ∧ 0 ≤ v ∧ v < (New 20 20 whiteC).height) ↔ _
  simp only [New]
  constructor
  · intro h
    omega
  · intro h
    omega

/-- Witness for the amended C3 at the concrete color black and pixel
(5,0) (painted) — the hypotheses are discharged at 5 and 0. -/
theorem claim_C3_drawBeeline_horizontal_amended_witness :
    (drawBeeline (New 20 20 whiteC) ⟨0, 0⟩ ⟨10, 0⟩ blackC).map (fun d => d.pixels 5 0)
      = some (if (0:Int) = 0 ∧ (5:Int) ≤ 12 then blackC else whiteC) :=
  claim_C3_drawBeeline_horizontal_amended blackC 5 0 (by decide) (by decide) (by decide)
    (by decide)

/-- `sineInner` preserves the width. -/
theorem sineInner_width (c0 : Color) (pyv px : Int) :
    ∀ k c, (sineInner c0 pyv px k c).width = c.width := by
  intro k
  induction k with
  | zero => intro c; rfl
  | succ i ih =>
    intro c
    show (sineInner c0 pyv px i (setPix c (px + ((i : Int) + 1)) pyv c0)).width = c.width
    rw [ih, setPix_width]

/-- `sineInner` preserves the height. -/
theorem sineInner_height (c0 : Color) (pyv px : Int) :
    ∀ k c, (sineInner c0 pyv px k c).height = c.height := by
  intro k
  induction k with
  | zero => intro c; rfl
  | succ i ih =>
    intro c
    show (sineInner c0 pyv px i (setPix c (px + ((i : Int) + 1)) pyv c0)).height = c.height
    rw [ih, setPix_height]

/-- Pointwise effect of the inner `DrawSineLine` run: the pixels
`(px+1 .. px+k, pyv)` — a horizontal run on the fixed row `pyv` — get
the curve color; everything else is untouched. -/
theorem sineInner_pixels (c0 : Color) (pyv px : Int) :
    ∀ k c u v,
      (sineInner c0 pyv px k c).pixels u v =
        if v = pyv ∧ px + 1 ≤ u ∧ u ≤ px + (k : Int) ∧
            0 ≤ u ∧ u < c.width ∧ 0 ≤ v ∧ v < c.height
        then c0 else c.pixels u v := by
  intro k
  induction k with
  | zero =>
    intro c u v
    rw [show sineInner c0 pyv px 0 c = c from rfl, if_neg]
    rintro ⟨-, h2, h3, -⟩
    omega
  | succ i ih =>
    intro c u v
    rw [show sineInner c0 pyv px (i + 1) c
        = sineInner c0 pyv px i (setPix c (px + ((i : Int) + 1)) pyv c0) from rfl]
    rw [ih, setPix_width, setPix_height, setPix_pixels]
    split_ifs <;> first | rfl | omega

open Classical in
/-- Pointwise effect of the outer `DrawSineLine` loop from `px` with
enough fuel: a pixel gets the curve color exactly when some column `q`
in `[px, px2)` puts it in the horizontal run `(q+1 .. q+k, pyInt q)`
and it is in bounds. -/
theorem sineLoop_pixels (c0 : Color) (pyInt : Int → Int) (k : Nat) (px2 : Int) :
    ∀ fuel : Nat, ∀ px : Int, ∀ c u v, px2 ≤ px + (fuel : Int) →
      (sineLoop c0 pyInt k px2 fuel px c).pixels u v =
        if (∃ q, px ≤ q ∧ q < px2 ∧ v = pyInt q ∧ q + 1 ≤ u ∧ u ≤ q + (k : Int)) ∧
            0 ≤ u ∧ u < c.width ∧ 0 ≤ v ∧ v < c.height
        then c0 else c.pixels u v := by
  intro fuel
  induction fuel with
  | zero =>
    intro px c u v hf
    rw [show sineLoop c0 pyInt k px2 0 px c = c from rfl, if_neg]
    rintro ⟨⟨q, hq1, hq2, -⟩, -⟩
    omega
  | succ n ih =>
    intro px c u v hf
    rw [show sineLoop c0 pyInt k px2 (n + 1) px c
        = if px < px2 then
            sineLoop c0 pyInt k px2 n (px + 1) (sineInner c0 (pyInt px) px k c)
          else c from rfl]
    by_cases hlt : px < px2
    · rw [if_pos hlt, ih (px + 1) _ u v (by push_cast at hf ⊢; omega)]
      rw [sineInner_width, sineInner_height, sineInner_pixels]
      by_cases hB : 0 ≤ u ∧ u < c.width ∧ 0 ≤ v ∧ v < c.height
      · by_cases hr : ∃ q, px + 1 ≤ q ∧ q < px2 ∧ v = pyInt q ∧ q + 1 ≤ u ∧ u ≤ q + (k : Int)
        · obtain ⟨q, hq0, hq1, hq2, hq3, hq4⟩ := hr
          rw [if_pos ⟨⟨q, hq0, hq1, hq2, hq3, hq4⟩, hB⟩,
            if_pos ⟨⟨q, by omega, hq1, hq2, hq3, hq4⟩, hB⟩]
        · rw [if_neg (fun hc => hr hc.1)]
          by_cases hh : v = pyInt px ∧ px + 1 ≤ u ∧ u ≤ px + (k : Int)
          · rw [if_pos ⟨hh.1, hh.2.1, hh.2.2, hB⟩,
              if_pos ⟨⟨px, le_refl px, hlt, hh.1, hh.2.1, hh.2.2⟩, hB⟩]
          · rw [if_neg (fun hc => hh ⟨hc.1, hc.2.1, hc.2.2.1⟩), if_neg]
            rintro ⟨⟨q, hq0, hq1, hq2, hq3, hq4⟩, -⟩
            rcases eq_or_lt_of_le hq0 with heq | hlt2
            · exact hh ⟨heq ▸ hq2, heq ▸ hq3, heq ▸ hq4⟩
            · exact hr ⟨q, by omega, hq1, hq2, hq3, hq4⟩
      · rw [if_neg (fun hc => hB hc.2), if_neg (fun hc => hB ⟨hc.2.2.2.1, hc.2.2.2.2⟩),
          if_neg (fun hc => hB hc.2)]
    · rw [if_neg hlt, if_neg]
      rintro ⟨⟨q, hq1, hq2, -⟩, -⟩
      omega

set_option maxRecDepth 4000 in
/-- C8 counterexample: on a clean 20×20 white canvas with stream
[0,1,0,0,0,0,0,0] (amplitude 0, offset b = -4, so the float curve is
constantly 0 and `pyInt` is the constant-0 oracle; extent px2 = 16;
curve color black), the claim's vertical run of height/5 = 4 pixels at
the curve's y would paint (5, 1) black, but `DrawSineLine` paints the
run horizontally — `Set(px+i, int(py))` — so (5, 1) stays white while
(6, 0) is black. -/
theorem claim_C8_counterexample :
    (DrawSineLine (New 20 20 whiteC) [0, 1, 0, 0, 0, 0, 0, 0] (fun _ => 0)).map
        (fun d => (d.pixels 5 1, d.pixels 6 0))
      = some (whiteC, blackC) := by decide

open Classical in
/-- C8 amended: for every clean canvas with positive `height/2` (else
`rand.Intn(height/2)` panics), `DrawSineLine` plots, at each x in its
horizontal extent `[0, px2)`, a HORIZONTAL run of `height/5` pixels at
`(x+1 .. x+height/5)` on the curve's computed row `pyInt x`, all in
one fixed random color chosen once for the whole curve. -/
theorem claim_C8_sineline_amended (c : CaptchaImage) (rng : Rng) (pyInt : Int → Int)
    (hE : c.Error = none) (hh : 0 < Int.tdiv c.height 2) :
    ∃ col px2 d, DrawSineLine c rng pyInt = some d ∧
      ∀ u v, d.pixels u v =
        if (∃ q, 0 ≤ q ∧ q < px2 ∧ v = pyInt q ∧ q + 1 ≤ u ∧
            u ≤ q + (((Int.tdiv c.height 5).toNat : Nat) : Int)) ∧
            0 ≤ u ∧ u < c.width ∧ 0 ≤ v ∧ v < c.height
        then col else c.pixels u v := by
  rw [DrawSineLine, if_neg (by simp [hE] : ¬ c.Error.isSome = true), goIntn_pos _ hh]
  simp only [Option.some_bind, goIntn_pos 150 (by norm_num), Option.map_some']
  exact ⟨_, _, _, rfl, fun u v => sineLoop_pixels _ pyInt _ _ _ 0 c u v (by omega)⟩

open Classical in
/-- Witness for the amended C8 at the concrete canvas, stream and
constant-0 curve oracle of the counterexample scenario. -/
theorem claim_C8_sineline_amended_witness :
    ∃ col px2 d,
      DrawSineLine (New 20 20 whiteC) [0, 1, 0, 0, 0, 0, 0, 0] (fun _ => 0) = some d ∧
      ∀ u v, d.pixels u v =
        if (∃ q, 0 ≤ q ∧ q < px2 ∧ v = (fun _ => (0 : Int)) q ∧ q + 1 ≤ u ∧
            u ≤ q + (((Int.tdiv (New 20 20 whiteC).height 5).toNat : Nat) : Int)) ∧
            0 ≤ u ∧ u < (New 20 20 whiteC).width ∧ 0 ≤ v ∧ v < (New 20 20 whiteC).height
        then col else (New 20 20 whiteC).pixels u v :=
  claim_C8_sineline_amended (New 20 20 whiteC) [0, 1, 0, 0, 0, 0, 0, 0] (fun _ => 0)
    rfl (by decide)
